import Mathlib

/-!
The go-crud application: validation and customer handlers

A shallow embedding of `main.go` (the customer CRUD web application) and
theorems about its form validator, its e-mail pattern and its HTTP handlers.

Conventions of the embedding:

* a Go `string` is a sequence of bytes (`GoString`); `len` is the number of
  bytes, `==` is equality of byte sequences, `s[0:n]` takes bytes;
* functions of the Go standard library that the program calls
  (`regexp`, `strings.Fields`, `strconv.Atoi`, UTF-8 decoding) are modelled
  after their documented behaviour;
* the database and the HTTP response writer are not part of the program: a
  handler is a function of the request and of the replies the database gives,
  and it returns what it wrote to the response, the database calls it issued
  and how it ended (returned, panicked, or terminated the process).
-/

namespace GoCrud

/-! ## Go strings -/

/-- A Go string: an immutable sequence of bytes. -/
abbrev GoString := List UInt8

/-- The Go string denoted by a string literal: its UTF-8 encoding. -/
def go (s : String) : GoString := s.toUTF8.data.toList

/-- Go's `len(s)`: the number of bytes. -/
def len (s : GoString) : Nat := s.length

/-- Go's slice expression `s[lo:hi]` on a string; `none` is the run-time panic
"slice bounds out of range". -/
def slice (s : GoString) (lo hi : Nat) : Option GoString :=
  if hi > len s ∨ lo > hi then none else some ((s.take hi).drop lo)

/-- Is the byte a UTF-8 continuation byte (`10xxxxxx`)? -/
def isCont (b : Nat) : Bool := 0x80 ≤ b && b ≤ 0xBF

/-- Code point of the invalid-encoding replacement rune `utf8.RuneError`. -/
def RuneError : Nat := 0xFFFD

/-- Go's `utf8.DecodeRune` on the bytes `b0 :: rest` (as numbers): the rune at
the front and its width in bytes. An encoding that is not well-formed UTF-8
yields `(RuneError, 1)`. -/
def decodeRune (b0 : Nat) (rest : List Nat) : Nat × Nat :=
  if b0 < 0x80 then (b0, 1)
  else if 0xC2 ≤ b0 ∧ b0 ≤ 0xDF then
    match rest with
    | b1 :: _ =>
      if isCont b1 then ((b0 - 0xC0) * 64 + (b1 - 0x80), 2) else (RuneError, 1)
    | _ => (RuneError, 1)
  else if 0xE0 ≤ b0 ∧ b0 ≤ 0xEF then
    match rest with
    | b1 :: b2 :: _ =>
      let lo := if b0 = 0xE0 then 0xA0 else 0x80
      let hi := if b0 = 0xED then 0x9F else 0xBF
      if lo ≤ b1 ∧ b1 ≤ hi ∧ isCont b2 then
        ((b0 - 0xE0) * 4096 + (b1 - 0x80) * 64 + (b2 - 0x80), 3)
      else (RuneError, 1)
    | _ => (RuneError, 1)
  else if 0xF0 ≤ b0 ∧ b0 ≤ 0xF4 then
    match rest with
    | b1 :: b2 :: b3 :: _ =>
      let lo := if b0 = 0xF0 then 0x90 else 0x80
      let hi := if b0 = 0xF4 then 0x8F else 0xBF
      if lo ≤ b1 ∧ b1 ≤ hi ∧ isCont b2 ∧ isCont b3 then
        ((b0 - 0xF0) * 262144 + (b1 - 0x80) * 4096 + (b2 - 0x80) * 64 + (b3 - 0x80), 4)
      else (RuneError, 1)
    | _ => (RuneError, 1)
  else (RuneError, 1)

/-- The runes of a Go string in order, each with the bytes that encode it, as a
`for range` loop over the string (or the regexp engine) sees them. `skip` is
the number of leading bytes that belong to the rune decoded before. -/
def runesFrom : GoString → Nat → List (Nat × GoString)
  | [], _ => []
  | _ :: rest, skip + 1 => runesFrom rest skip
  | b :: rest, 0 =>
    let d := decodeRune b.toNat (rest.map UInt8.toNat)
    (d.1, (b :: rest).take d.2) :: runesFrom rest (d.2 - 1)

/-- The runes of a Go string with their encodings. -/
def runes (s : GoString) : List (Nat × GoString) := runesFrom s 0

/-- The code points of a Go string. -/
def runeValues (s : GoString) : List Nat := (runes s).map Prod.fst

/-- Go's `utf8.RuneCountInString`: the number of characters of a string. -/
def runeCount (s : GoString) : Nat := (runes s).length

/-! ## Regular expressions (package `regexp`) -/

/-- The fragment of Go's regular-expression syntax that the program uses.
A character class is a predicate on code points. -/
inductive Regex where
  | cls (p : Nat → Bool)
  | seq (a b : Regex)
  | opt (a : Regex)
  | star (a : Regex)
  | plus (a : Regex)
  | rep (a : Regex) (lo hi : Nat)

/-- Every way to cut a list into a prefix and a suffix. -/
def splits {α : Type} : List α → List (List α × List α)
  | [] => [([], [])]
  | x :: xs => ([], x :: xs) :: (splits xs).map (fun p => (x :: p.1, p.2))

/-- Does `s` consist of at least `lo` and at most `hi` pieces accepted by `m`? -/
def matchRep (m : List Nat → Bool) : Nat → Nat → List Nat → Bool
  | lo, 0, s => lo == 0 && s.isEmpty
  | lo, hi + 1, s =>
    (lo == 0 && s.isEmpty) ||
      (splits s).any (fun p => m p.1 && matchRep m (lo - 1) hi p.2)

/-- Does `s` consist of any number of non-empty pieces accepted by `m`?
`fuel` bounds the number of pieces. -/
def matchStar (m : List Nat → Bool) : Nat → List Nat → Bool
  | 0, s => s.isEmpty
  | fuel + 1, s =>
    s.isEmpty ||
      (splits s).any (fun p => !p.1.isEmpty && m p.1 && matchStar m fuel p.2)

/-- Does the whole of `s` belong to the language of the expression? -/
def Regex.accepts : Regex → List Nat → Bool
  | .cls p, s =>
    match s with
    | [c] => p c
    | _ => false
  | .seq a b, s => (splits s).any (fun p => a.accepts p.1 && b.accepts p.2)
  | .opt a, s => s.isEmpty || a.accepts s
  | .star a, s => matchStar a.accepts s.length s
  | .plus a, s =>
    (splits s).any (fun p => a.accepts p.1 && matchStar a.accepts p.2.length p.2)
  | .rep a lo hi, s => matchRep a.accepts lo hi s

/-- Go's `(*Regexp).MatchString` for a pattern of the form `^...$`: the engine
decodes the string into runes, and the anchors make the match cover all of it. -/
def MatchString (r : Regex) (s : GoString) : Bool := r.accepts (runeValues s)

/-! ## The e-mail pattern and the validator (`main.go`, lines 278-291) -/

/-- The class `[a-zA-Z0-9]`. -/
def alnum (c : Nat) : Bool :=
  ('a'.toNat ≤ c && c ≤ 'z'.toNat) || ('A'.toNat ≤ c && c ≤ 'Z'.toNat) ||
    ('0'.toNat ≤ c && c ≤ '9'.toNat)

/-- The class `[a-zA-Z0-9-]`. -/
def alnumHyphen (c : Nat) : Bool := alnum c || c == '-'.toNat

/-- The class ``[a-zA-Z0-9.!#$%&'*+/=?^_`{|}~-]``. -/
def localChar (c : Nat) : Bool :=
  alnum c || (".!#$%&\x27*+/=?^_`\x7b|\x7d~-".toList.map Char.toNat).contains c

/-- The sub-pattern `[a-zA-Z0-9](?:[a-zA-Z0-9-]{0,61}[a-zA-Z0-9])?`. -/
def labelRe : Regex :=
  .seq (.cls alnum) (.opt (.seq (.rep (.cls alnumHyphen) 0 61) (.cls alnum)))

/-- The pattern `re` of `main.go`:
``^[a-zA-Z0-9.!#$%&'*+/=?^_`{|}~-]+@[a-zA-Z0-9](?:[a-zA-Z0-9-]{0,61}[a-zA-Z0-9])?(?:\.[a-zA-Z0-9](?:[a-zA-Z0-9-]{0,61}[a-zA-Z0-9])?)*$``. -/
def re : Regex :=
  .seq (.plus (.cls localChar))
    (.seq (.cls (fun c => c == '@'.toNat))
      (.seq labelRe (.star (.seq (.cls (fun c => c == '.'.toNat)) labelRe))))

/-- The function `validateForm` of `main.go`: `true` means the record is invalid. -/
def validateForm (firstName lastName gender address email : GoString) : Bool :=
  if (firstName == go "" || len firstName > 100) ||
      (lastName == go "" || len lastName > 100) ||
      (gender != go "Male" && gender != go "Female") ||
      (address == go "" || len address > 200) ||
      (!MatchString re email) then
    true
  else
    false

/-- The language of an expression. -/
def Regex.Lang : Regex → List Nat → Prop
  | .cls p, s => ∃ c, s = [c] ∧ p c = true
  | .seq a b, s => ∃ x y, s = x ++ y ∧ a.Lang x ∧ b.Lang y
  | .opt a, s => s = [] ∨ a.Lang s
  | .star a, s => ∃ xs : List (List Nat), s = xs.flatten ∧ ∀ x ∈ xs, a.Lang x
  | .plus a, s => ∃ xs : List (List Nat), xs ≠ [] ∧ s = xs.flatten ∧ ∀ x ∈ xs, a.Lang x
  | .rep a lo hi, s =>
    ∃ xs : List (List Nat),
      lo ≤ xs.length ∧ xs.length ≤ hi ∧ s = xs.flatten ∧ ∀ x ∈ xs, a.Lang x

/-! ## The e-mail form in the words of the specification -/

/-- An ASCII letter. -/
def isLetter (c : Nat) : Bool :=
  ('a'.toNat ≤ c && c ≤ 'z'.toNat) || ('A'.toNat ≤ c && c ≤ 'Z'.toNat)

/-- An ASCII digit. -/
def isDigit (c : Nat) : Bool := '0'.toNat ≤ c && c ≤ '9'.toNat

/-- The punctuation allowed in a local part:
``. ! # $ % & ' * + / = ? ^ _ ` { | } ~ -``. -/
def specialChars : List Nat :=
  ['.', '!', '#', '$', '%', '&', '\x27', '*', '+', '/', '=', '?', '^', '_', '\x60',
    '\x7b', '|', '\x7d', '~', '-'].map Char.toNat

/-- A local part: non-empty, made only of letters, digits and the allowed punctuation. -/
def IsLocalPart (l : List Nat) : Prop :=
  l ≠ [] ∧ ∀ c ∈ l, isLetter c = true ∨ isDigit c = true ∨ c ∈ specialChars

/-- A DNS label: 1 to 63 characters, only letters, digits and hyphens, and
neither the first nor the last character is a hyphen. -/
def IsLabel (l : List Nat) : Prop :=
  1 ≤ l.length ∧ l.length ≤ 63 ∧
    (∀ c ∈ l, isLetter c = true ∨ isDigit c = true ∨ c = '-'.toNat) ∧
    l.head? ≠ some '-'.toNat ∧ l.getLast? ≠ some '-'.toNat

/-- The form `local@label1.label2...labelN` with `N ≥ 1`. -/
def IsEmail (cs : List Nat) : Prop :=
  ∃ (loc : List Nat) (labels : List (List Nat)),
    IsLocalPart loc ∧ labels ≠ [] ∧ (∀ l ∈ labels, IsLabel l) ∧
      cs = loc ++ '@'.toNat :: List.intercalate ['.'.toNat] labels

/-! ## Library functions used by the handlers -/

/-- Go's `unicode.IsSpace`: the code points with the Unicode White_Space property. -/
def isSpace (r : Nat) : Bool :=
  r == 0x09 || r == 0x0A || r == 0x0B || r == 0x0C || r == 0x0D || r == 0x20 ||
    r == 0x85 || r == 0xA0 || r == 0x1680 || (0x2000 ≤ r && r ≤ 0x200A) ||
    r == 0x2028 || r == 0x2029 || r == 0x202F || r == 0x205F || r == 0x3000

/-- The scan of `strings.Fields`: `cur` holds the bytes of the field being read. -/
def fieldsLoop : List (Nat × GoString) → GoString → List GoString
  | [], cur => if cur.isEmpty then [] else [cur]
  | (r, bytes) :: rest, cur =>
    if isSpace r then
      if cur.isEmpty then fieldsLoop rest [] else cur :: fieldsLoop rest []
    else fieldsLoop rest (cur ++ bytes)

/-- Go's `strings.Fields`: the maximal runs of non-space characters of `s`. -/
def Fields (s : GoString) : List GoString := fieldsLoop (runes s) []

/-- The two errors of `strconv`: `ErrSyntax` and `ErrRange`. -/
inductive NumError where
  | syntaxErr
  | rangeErr
  deriving DecidableEq

/-- The largest `uint64`. -/
def maxUint64 : Nat := 2 ^ 64 - 1

/-- The loop of `strconv.ParseUint(s, 10, 64)` over the bytes of `s`, with `n`
the value read so far. A byte that is not a decimal digit is a syntax error
with value 0 (in base 10 a letter is a digit that is too large, any other
byte is no digit at all). Before a digit is added the loop checks that
`n*10` and `n*10 + d` still fit in 64 bits; when they do not it returns
`(maxUint64, ErrRange)` at once, without reading the bytes that follow. -/
def parseUintLoop : GoString → Nat → Nat × Option NumError
  | [], n => (n, none)
  | c :: rest, n =>
    if '0'.toNat ≤ c.toNat ∧ c.toNat ≤ '9'.toNat then
      let d := c.toNat - '0'.toNat
      if n ≥ maxUint64 / 10 + 1 then (maxUint64, some .rangeErr)
      else if n * 10 + d > maxUint64 then (maxUint64, some .rangeErr)
      else parseUintLoop rest (n * 10 + d)
    else (0, some .syntaxErr)

/-- Go's `strconv.ParseUint(s, 10, 64)`. -/
def ParseUint (s : GoString) : Nat × Option NumError :=
  if s.isEmpty then (0, some .syntaxErr) else parseUintLoop s 0

/-- Go's `strconv.ParseInt(s, 10, 64)`: the sign is picked off, the rest goes
to `ParseUint`; a syntax error gives 0, and a value outside the `int64` range
(also the `maxUint64` of a range error of `ParseUint`) gives the nearest bound. -/
def ParseInt (s : GoString) : Int × Option NumError :=
  match s with
  | [] => (0, some .syntaxErr)
  | c :: rest =>
    let neg := c.toNat = '-'.toNat
    let body := if c.toNat = '+'.toNat ∨ c.toNat = '-'.toNat then rest else c :: rest
    match ParseUint body with
    | (_, some .syntaxErr) => (0, some .syntaxErr)
    | (un, _) =>
      if ¬neg ∧ un ≥ 2 ^ 63 then ((2 : Int) ^ 63 - 1, some .rangeErr)
      else if neg ∧ un > 2 ^ 63 then (-(2 : Int) ^ 63, some .rangeErr)
      else if neg then (-(un : Int), none)
      else ((un : Int), none)

/-- The loop of the fast path of `strconv.Atoi`: `ch -= '0'` on a byte (modulo
256), a syntax error (`none`) when the result exceeds 9. -/
def atoiFastLoop : GoString → Nat → Option Nat
  | [], n => some n
  | ch :: rest, n =>
    let d := (ch.toNat + 256 - '0'.toNat) % 256
    if d > 9 then none else atoiFastLoop rest (n * 10 + d)

/-- Go's `strconv.Atoi` with a 64-bit `int`: the value, and the error if any.
A string of 1 to 18 bytes takes the fast path (its value cannot overflow);
every other string goes to `ParseInt(s, 10, 0)`. -/
def Atoi (s : GoString) : Int × Option NumError :=
  if 0 < len s ∧ len s < 19 then
    match s with
    | [] => (0, some .syntaxErr)
    | c :: rest =>
      let body := if c.toNat = '-'.toNat ∨ c.toNat = '+'.toNat then rest else c :: rest
      if len body < 1 then (0, some .syntaxErr)
      else
        match atoiFastLoop body 0 with
        | none => (0, some .syntaxErr)
        | some n => if c.toNat = '-'.toNat then (-(n : Int), none) else ((n : Int), none)
  else ParseInt s

/-- The string without its leading sign, if it has one. -/
def unsigned : GoString → GoString
  | [] => []
  | c :: rest => if c.toNat = '+'.toNat ∨ c.toNat = '-'.toNat then rest else c :: rest

/-- The number written by the digits at the front of a string, up to the
first byte that is not a digit (`n` is the value of the digits before). -/
def leadingValue : GoString → Nat → Nat
  | [], n => n
  | c :: rest, n =>
    if '0'.toNat ≤ c.toNat ∧ c.toNat ≤ '9'.toNat then
      leadingValue rest (n * 10 + (c.toNat - '0'.toNat))
    else n

/-- The identifier that `Atoi` leaves for a string that is not a decimal
integer: 0 when the digits at its front stay below `2 ^ 64`, otherwise the
bound of `int` on the side of its sign. -/
def badIdValue (s : GoString) : Int :=
  if leadingValue (unsigned s) 0 < 2 ^ 64 then 0
  else if s.head?.map UInt8.toNat = some '-'.toNat then -(2 : Int) ^ 63
  else (2 : Int) ^ 63 - 1

/-- A syntactically valid decimal integer: an optional sign and one or more digits. -/
def IsDecimalInteger (s : GoString) : Prop :=
  ∃ sign digits : GoString,
    s = sign ++ digits ∧ (sign = [] ∨ sign = go "+" ∨ sign = go "-") ∧
      digits ≠ [] ∧ ∀ b ∈ digits, isDigit b.toNat = true

/-! ## Data model (`main.go`, lines 20-33) -/

/-- The struct `Customer`. -/
structure Customer where
  ID : Int
  FirstName : GoString
  LastName : GoString
  BirthDate : GoString
  Gender : GoString
  Email : GoString
  Address : GoString
  deriving DecidableEq

/-- The zero value `Customer{}`. -/
def Customer.zero : Customer := ⟨0, go "", go "", go "", go "", go "", go ""⟩

/-- The struct `SearchData`. -/
structure SearchData where
  Customers : List Customer
  SearchParameter : GoString
  deriving DecidableEq

/-! ## The environment of a handler -/

/-- What a handler reads of an `*http.Request`: the method and the form values
(`FormValue` gives the empty string for a missing key). -/
structure Request where
  Method : GoString
  FormValue : GoString → GoString

/-- The data handed to a template. -/
inductive View where
  | none
  | customers (cs : List Customer)
  | search (d : SearchData)
  | customer (c : Customer)
  deriving DecidableEq

/-- A write to the `http.ResponseWriter`. -/
inductive Write where
  /-- The call `http.Error(w, http.StatusText(code), code)`. -/
  | error (code : Nat)
  /-- The call `http.NotFound(w, r)`. -/
  | notFound
  /-- The call `http.Redirect(w, r, url, code)`. -/
  | redirect (url : GoString) (code : Nat)
  /-- The call `tpl.ExecuteTemplate(w, name, data)`. -/
  | template (name : GoString) (data : View)
  deriving DecidableEq

/-- The status code a write sets when it is the first one. -/
def Write.code : Write → Nat
  | .error code => code
  | .notFound => 404
  | .redirect _ code => code
  | .template _ _ => 200

/-- A statement of the program that changes the table. -/
inductive Stmt where
  /-- The statement `INSERT INTO Customers(first_name, last_name, birth_date, gender, email, address)
  VALUES ($1, $2, $3, $4, $5, $6)`. -/
  | insert (firstName lastName birthDate gender email address : GoString)
  /-- The statement `UPDATE Customers SET first_name=$1, last_name=$2, birth_date=$3, gender=$4,
  email=$5, address=$6 WHERE ID=$7`. -/
  | update (firstName lastName birthDate gender email address : GoString) (id : Int)
  deriving DecidableEq

/-- A call to the database together with whether it succeeded. -/
inductive DbCall where
  /-- The call `db.Query("SELECT * FROM Customers WHERE first_name=$1 OR last_name=$2", w0, w1)`. -/
  | querySearch (w0 w1 : GoString)
  /-- The call `db.Query("SELECT * FROM Customers")`. -/
  | queryAll
  /-- The call `db.QueryRow("SELECT * FROM Customers WHERE id = $1", id)`. -/
  | queryRow (id : GoString)
  /-- The call `db.Exec(stmt)`, outside a transaction. -/
  | exec (stmt : Stmt) (ok : Bool)
  /-- The call `db.Begin()`. -/
  | begin (ok : Bool)
  /-- The call `txn.Exec(stmt)`. -/
  | txExec (stmt : Stmt) (ok : Bool)
  /-- The call `txn.Commit()`. -/
  | commit (ok : Bool)
  /-- The call `txn.Rollback()`. -/
  | rollback
  deriving DecidableEq

/-- The error of a `Scan`: `sql.ErrNoRows` or any other error. -/
inductive ScanErr where
  | noRows
  | other
  deriving DecidableEq

/-- The result of a `Scan` into a fresh `Customer{}`: the fields as the scan
left them and the error it returned. -/
structure Scanned where
  customer : Customer
  err : Option ScanErr
  deriving DecidableEq

/-- The replies of the database to the calls of one request. `none` for a
query is an error of `db.Query`. -/
structure DB where
  search : GoString → GoString → Option (List Scanned)
  all : Option (List Scanned)
  row : GoString → Scanned
  beginOk : Bool
  execOk : Stmt → Bool
  commitOk : Bool

/-- How the handler ended: it returned, it panicked, or it ended the process
(`log.Fatal`). -/
inductive Ending where
  | returned
  | panicked
  | exited
  deriving DecidableEq

/-- The observable behaviour of a handler on one request. -/
structure Outcome where
  writes : List Write
  calls : List DbCall
  ending : Ending
  deriving DecidableEq

/-- The status of the response: that of the first write (later ones cannot
change it), 200 when a handler returns without writing, none when it ends
abnormally before writing. -/
def Outcome.status (o : Outcome) : Option Nat :=
  match o.writes, o.ending with
  | w :: _, _ => some w.code
  | [], .returned => some 200
  | [], _ => none

/-! ## The handlers (`main.go`, lines 64-268) -/

/-- The loop `for rows.Next() { ... }` of `searchCustomer` and `showCustomers`:
each row is scanned, its birth date is cut to `BirthDate[0:10]`, then the scan
error is checked (`panic(err)`) and the customer appended. `none` is a panic. -/
def scanLoop : List Scanned → List Customer → Option (List Customer)
  | [], customers => some customers
  | row :: rows, customers =>
    match slice row.customer.BirthDate 0 10 with
    | none => none
    | some date =>
      let customer := { row.customer with BirthDate := date }
      if row.err.isSome then none else scanLoop rows (customers ++ [customer])

/-- The handler `searchCustomer`. The index expressions `words[0]` and
`words[1]` panic when the index is out of range; they are evaluated before the
query is sent. After the loop the outer `err` is nil, so the final `switch`
takes no branch. -/
def searchCustomer (db : DB) (r : Request) : Outcome :=
  let searchString := r.FormValue (go "param")
  if searchString == go "" then ⟨[.error 400], [], .returned⟩
  else
    let words := Fields searchString
    match words[0]?, words[1]? with
    | some w0, some w1 =>
      match db.search w0 w1 with
      | none => ⟨[], [.querySearch w0 w1], .panicked⟩
      | some rows =>
        match scanLoop rows [] with
        | none => ⟨[], [.querySearch w0 w1], .panicked⟩
        | some customers =>
          ⟨[.template (go "search.html") (.search ⟨customers, searchString⟩)],
            [.querySearch w0 w1], .returned⟩
    | _, _ => ⟨[], [], .panicked⟩

/-- The handler `editCustomerAction`. After the 400 of a failed validation
there is no `return`: the handler goes on. -/
def editCustomerAction (db : DB) (r : Request) : Outcome :=
  if r.Method != go "POST" then ⟨[.error 405], [], .returned⟩
  else
    let id := r.FormValue (go "ID")
    if id == go "" then ⟨[.error 400], [], .returned⟩
    else
      let customer : Customer :=
        { ID := (Atoi id).1
          FirstName := r.FormValue (go "firstName")
          LastName := r.FormValue (go "lastName")
          BirthDate := r.FormValue (go "birthDate")
          Gender := r.FormValue (go "gender")
          Email := r.FormValue (go "email")
          Address := r.FormValue (go "address") }
      let w : List Write :=
        if validateForm customer.FirstName customer.LastName customer.Gender
            customer.Address customer.Email then [.error 400] else []
      if !db.beginOk then ⟨w, [.begin false], .returned⟩
      else
        let stmt := Stmt.update customer.FirstName customer.LastName customer.BirthDate
          customer.Gender customer.Email customer.Address customer.ID
        if !db.execOk stmt then
          ⟨w ++ [.error 500], [.begin true, .txExec stmt false, .rollback], .returned⟩
        else if !db.commitOk then
          ⟨w, [.begin true, .txExec stmt true, .commit false], .exited⟩
        else
          ⟨w ++ [.redirect (go "customers") 303],
            [.begin true, .txExec stmt true, .commit true], .returned⟩

/-- The handler `createCustomerAction`. -/
def createCustomerAction (db : DB) (r : Request) : Outcome :=
  if r.Method != go "POST" then ⟨[.error 405], [], .returned⟩
  else
    let customer : Customer :=
      { ID := 0
        FirstName := r.FormValue (go "firstName")
        LastName := r.FormValue (go "lastName")
        BirthDate := r.FormValue (go "birthDate")
        Gender := r.FormValue (go "gender")
        Email := r.FormValue (go "email")
        Address := r.FormValue (go "address") }
    if validateForm customer.FirstName customer.LastName customer.Gender
        customer.Address customer.Email then ⟨[.error 400], [], .returned⟩
    else
      let stmt := Stmt.insert customer.FirstName customer.LastName customer.BirthDate
        customer.Gender customer.Email customer.Address
      if !db.execOk stmt then ⟨[.error 500], [.exec stmt false], .returned⟩
      else ⟨[.redirect (go "customers") 303], [.exec stmt true], .returned⟩

/-- The handler `showCustomers`. -/
def showCustomers (db : DB) (r : Request) : Outcome :=
  if r.Method != go "GET" then ⟨[.error 405], [], .returned⟩
  else
    match db.all with
    | none => ⟨[], [.queryAll], .panicked⟩
    | some rows =>
      match scanLoop rows [] with
      | none => ⟨[], [.queryAll], .panicked⟩
      | some customers =>
        ⟨[.template (go "all.html") (.customers customers)], [.queryAll], .returned⟩

/-- The handler `editCustomer`. The birth date is cut before the error of the
scan is looked at. -/
def editCustomer (db : DB) (r : Request) : Outcome :=
  if r.Method != go "GET" then ⟨[.error 405], [], .returned⟩
  else
    let id := r.FormValue (go "id")
    if id == go "" then ⟨[.error 400], [], .returned⟩
    else
      let row := db.row id
      match slice row.customer.BirthDate 0 10 with
      | none => ⟨[], [.queryRow id], .panicked⟩
      | some date =>
        let customer := { row.customer with BirthDate := date }
        match row.err with
        | some .noRows => ⟨[.notFound], [.queryRow id], .returned⟩
        | some .other => ⟨[.error 500], [.queryRow id], .returned⟩
        | none =>
          ⟨[.template (go "update.html") (.customer customer)], [.queryRow id], .returned⟩

/-- The handler `createCustomerForm`. -/
def createCustomerForm (_r : Request) : Outcome :=
  ⟨[.template (go "create.html") .none], [], .returned⟩

/-- The handler `index`. -/
def index (_r : Request) : Outcome :=
  ⟨[.redirect (go "customers") 303], [], .returned⟩

/-! ## The store -/

/-- The table of customers, and the working copy of the open transaction if
there is one. -/
structure Store where
  table : List Customer
  txn : Option (List Customer)
  deriving DecidableEq

/-- The identifier the store gives to a new row: one more than the largest. -/
def nextID (table : List Customer) : Int :=
  (table.map (fun c => c.ID)).foldl max 0 + 1

/-- The effect of a statement on a table. -/
def applyStmt : Stmt → List Customer → List Customer
  | .insert firstName lastName birthDate gender email address, table =>
    table ++ [⟨nextID table, firstName, lastName, birthDate, gender, email, address⟩]
  | .update firstName lastName birthDate gender email address id, table =>
    table.map fun c =>
      if c.ID = id then ⟨c.ID, firstName, lastName, birthDate, gender, email, address⟩
      else c

/-- The effect of one database call on the store: a statement that fails
changes nothing, a statement in a transaction changes the working copy, a
commit that succeeds installs the working copy, and a rollback or a failed
commit discards it. -/
def Store.step (s : Store) : DbCall → Store
  | .exec stmt true => { s with table := applyStmt stmt s.table }
  | .begin true => { s with txn := some s.table }
  | .txExec stmt true => { s with txn := s.txn.map (applyStmt stmt) }
  | .commit true => { table := s.txn.getD s.table, txn := none }
  | .commit false => { s with txn := none }
  | .rollback => { s with txn := none }
  | _ => s

/-- The store after a sequence of calls. -/
def Store.run (s : Store) (calls : List DbCall) : Store := calls.foldl Store.step s

/-! ## The rules of the validator in the words of the specification -/

/-- All five rules of the validator hold. The length of a field is its `len`. -/
def AllRulesHold (firstName lastName gender address email : GoString) : Prop :=
  (firstName ≠ go "" ∧ len firstName ≤ 100) ∧
    (lastName ≠ go "" ∧ len lastName ≤ 100) ∧
    (gender = go "Male" ∨ gender = go "Female") ∧
    (address ≠ go "" ∧ len address ≤ 200) ∧
    MatchString re email = true

/-- The rules for the four fields other than the first name. -/
def OtherRulesHold (lastName gender address email : GoString) : Prop :=
  (lastName ≠ go "" ∧ len lastName ≤ 100) ∧
    (gender = go "Male" ∨ gender = go "Female") ∧
    (address ≠ go "" ∧ len address ≤ 200) ∧
    MatchString re email = true

/-! ## Sample inputs -/

/-- A string of 100 characters and 200 bytes: 100 times U+00E9. -/
def accented100 : GoString := go (String.mk (List.replicate 100 (Char.ofNat 0xE9)))

/-- A string of 100 characters and 100 bytes: 100 times the letter `a`. -/
def ascii100 : GoString := go (String.mk (List.replicate 100 'a'))

/-- Form values given as a list of pairs; a key that is missing reads as the
empty string. -/
def formOf (kvs : List (String × String)) : GoString → GoString := fun k =>
  match kvs.find? (fun kv => go kv.1 == k) with
  | some kv => go kv.2
  | none => go ""

/-- A customer as stored. -/
def janeStored : Customer :=
  ⟨1, go "Jane", go "Doe", go "1990-05-02T00:00:00Z", go "Female",
    go "jane.doe@example.com", go "1 Main St"⟩

/-- A customer whose stored birth date has fewer than 10 bytes. -/
def shortDateStored : Customer :=
  ⟨2, go "John", go "Roe", go "1990", go "Male", go "john.roe@example.com", go "2 Main St"⟩

/-- A customer whose stored birth date starts with a two-byte character
(U+00E9 followed by "990-05-02T00:00:00Z"). -/
def accentedDateStored : Customer :=
  ⟨3, go "Jean", go "Roe", [0xC3, 0xA9] ++ go "990-05-02T00:00:00Z", go "Male",
    go "jean.roe@example.com", go "3 Main St"⟩

/-- The first `n` characters of a Go string. -/
def firstChars (n : Nat) (s : GoString) : GoString :=
  (((runes s).take n).map Prod.snd).flatten

/-- A database that holds the given rows, answers every query with all of
them and the look-up of any identifier with "no rows", and accepts every
statement. -/
def dbWith (rows : List Customer) : DB where
  search := fun _ _ => some (rows.map fun c => ⟨c, none⟩)
  all := some (rows.map fun c => ⟨c, none⟩)
  row := fun _ => ⟨Customer.zero, some .noRows⟩
  beginOk := true
  execOk := fun _ => true
  commitOk := true

/-- A database like `dbWith` whose look-up by identifier finds the given row. -/
def dbFinding (c : Customer) : DB :=
  { dbWith [c] with row := fun _ => ⟨c, none⟩ }

/-- A database like `dbWith` in which every statement fails. -/
def dbFailingExec (rows : List Customer) : DB :=
  { dbWith rows with execOk := fun _ => false }

/-! ## Auxiliary notions for the statements about the handlers -/

/-- The UPDATE statement that `editCustomerAction` builds from a request. -/
def updateStmt (r : Request) : Stmt :=
  .update (r.FormValue (go "firstName")) (r.FormValue (go "lastName"))
    (r.FormValue (go "birthDate")) (r.FormValue (go "gender")) (r.FormValue (go "email"))
    (r.FormValue (go "address")) (Atoi (r.FormValue (go "ID"))).1

/-- Does `validateForm` reject the fields submitted with a request? -/
def formInvalid (r : Request) : Bool :=
  validateForm (r.FormValue (go "firstName")) (r.FormValue (go "lastName"))
    (r.FormValue (go "gender")) (r.FormValue (go "address")) (r.FormValue (go "email"))

/-- A customer with the birth date cut to its first 10 bytes. -/
def truncateBirthDate (c : Customer) : Customer :=
  { c with BirthDate := c.BirthDate.take 10 }

/-- A POST request that submits an identifier, a gender and otherwise valid
fields. -/
def editRequest (id gender : String) : Request :=
  ⟨go "POST", formOf [("ID", id), ("firstName", "Janet"), ("lastName", "Doe"),
    ("birthDate", "1990-05-02"), ("gender", gender), ("email", "jane.doe@example.com"),
    ("address", "1 Main St")]⟩

/-- A GET request with one parameter. -/
def getRequest (key value : String) : Request := ⟨go "GET", formOf [(key, value)]⟩

set_option maxRecDepth 100000

/-! ## Correctness of the matcher -/

theorem mem_splits {α : Type} (s : List α) (p : List α × List α) :
    p ∈ splits s ↔ p.1 ++ p.2 = s := by
  induction s generalizing p with
  | nil =>
    obtain ⟨a, b⟩ := p
    simp [splits]
  | cons x xs ih =>
    obtain ⟨a, b⟩ := p
    simp only [splits, List.mem_cons, List.mem_map, Prod.mk.injEq]
    constructor
    · rintro (⟨rfl, rfl⟩ | ⟨q, hq, rfl, rfl⟩)
      · rfl
      · simp [(ih q).1 hq]
    · intro h
      cases a with
      | nil => left; exact ⟨rfl, by simpa using h⟩
      | cons y ys =>
        right
        simp only [List.cons_append, List.cons.injEq] at h
        exact ⟨(ys, b), (ih _).2 h.2, by simp [h.1], rfl⟩

theorem any_splits_iff {α : Type} (s : List α) (f : List α × List α → Bool) :
    (splits s).any f = true ↔ ∃ x y, s = x ++ y ∧ f (x, y) = true := by
  simp only [List.any_eq_true]
  constructor
  · rintro ⟨p, hp, hf⟩
    exact ⟨p.1, p.2, ((mem_splits s p).1 hp).symm, hf⟩
  · rintro ⟨x, y, rfl, hf⟩
    exact ⟨(x, y), (mem_splits _ _).2 rfl, hf⟩

theorem matchRep_iff (m : List Nat → Bool) (P : List Nat → Prop)
    (hm : ∀ x, m x = true ↔ P x) (lo hi : Nat) (s : List Nat) :
    matchRep m lo hi s = true ↔
      ∃ xs : List (List Nat),
        lo ≤ xs.length ∧ xs.length ≤ hi ∧ s = xs.flatten ∧ ∀ x ∈ xs, P x := by
  induction hi generalizing lo s with
  | zero =>
    simp only [matchRep, Bool.and_eq_true, beq_iff_eq, List.isEmpty_iff]
    constructor
    · rintro ⟨rfl, rfl⟩
      exact ⟨[], by simp⟩
    · rintro ⟨xs, h1, h2, rfl, -⟩
      have : xs = [] := List.length_eq_zero.1 (Nat.le_zero.1 h2)
      subst this
      exact ⟨by simpa using h1, rfl⟩
  | succ hi ih =>
    simp only [matchRep, Bool.or_eq_true, Bool.and_eq_true, beq_iff_eq, List.isEmpty_iff,
      any_splits_iff, hm, ih]
    constructor
    · rintro (⟨rfl, rfl⟩ | ⟨x, y, rfl, hx, ys, h1, h2, rfl, h3⟩)
      · exact ⟨[], by simp⟩
      · refine ⟨x :: ys, ?_, ?_, by simp, ?_⟩
        · simp only [List.length_cons]; omega
        · simp only [List.length_cons]; omega
        · intro z hz
          rcases List.mem_cons.1 hz with rfl | hz
          · exact hx
          · exact h3 z hz
    · rintro ⟨xs, h1, h2, rfl, h3⟩
      cases xs with
      | nil => left; exact ⟨by simpa using h1, rfl⟩
      | cons x ys =>
        right
        refine ⟨x, ys.flatten, by simp, h3 x (by simp), ys, ?_, ?_, rfl, ?_⟩
        · simp only [List.length_cons] at h1; omega
        · simp only [List.length_cons] at h2; omega
        · intro z hz
          exact h3 z (List.mem_cons_of_mem _ hz)

theorem matchStar_sound (m : List Nat → Bool) (P : List Nat → Prop)
    (hm : ∀ x, m x = true ↔ P x) (fuel : Nat) (s : List Nat)
    (h : matchStar m fuel s = true) :
    ∃ xs : List (List Nat), s = xs.flatten ∧ ∀ x ∈ xs, P x := by
  induction fuel generalizing s with
  | zero =>
    simp only [matchStar, List.isEmpty_iff] at h
    exact ⟨[], by simp [h]⟩
  | succ fuel ih =>
    simp only [matchStar, Bool.or_eq_true, List.isEmpty_iff, any_splits_iff,
      Bool.and_eq_true] at h
    rcases h with rfl | ⟨x, y, rfl, ⟨-, hx⟩, hy⟩
    · exact ⟨[], by simp⟩
    · obtain ⟨ys, rfl, h3⟩ := ih y hy
      refine ⟨x :: ys, by simp, ?_⟩
      intro z hz
      rcases List.mem_cons.1 hz with rfl | hz
      · exact (hm _).1 hx
      · exact h3 z hz

theorem matchStar_complete (m : List Nat → Bool) (P : List Nat → Prop)
    (hm : ∀ x, m x = true ↔ P x) (xs : List (List Nat)) (hxs : ∀ x ∈ xs, P x)
    (fuel : Nat) (hfuel : xs.flatten.length ≤ fuel) :
    matchStar m fuel xs.flatten = true := by
  induction xs generalizing fuel with
  | nil => cases fuel <;> simp [matchStar]
  | cons x ys ih =>
    have hys : ∀ z ∈ ys, P z := fun z hz => hxs z (List.mem_cons_of_mem _ hz)
    cases x with
    | nil =>
      simp only [List.flatten_cons, List.nil_append] at hfuel ⊢
      exact ih hys fuel hfuel
    | cons c cs =>
      cases fuel with
      | zero => simp at hfuel
      | succ fuel =>
        simp only [matchStar, Bool.or_eq_true, List.isEmpty_iff, any_splits_iff,
          Bool.and_eq_true]
        right
        refine ⟨c :: cs, ys.flatten, by simp, ⟨by simp, (hm _).2 (hxs _ (by simp))⟩, ?_⟩
        apply ih hys
        simp only [List.flatten_cons, List.length_append, List.length_cons] at hfuel
        omega

theorem matchStar_iff (m : List Nat → Bool) (P : List Nat → Prop)
    (hm : ∀ x, m x = true ↔ P x) (s : List Nat) :
    matchStar m s.length s = true ↔
      ∃ xs : List (List Nat), s = xs.flatten ∧ ∀ x ∈ xs, P x := by
  constructor
  · exact matchStar_sound m P hm _ s
  · rintro ⟨xs, rfl, h⟩
    exact matchStar_complete m P hm xs h _ (Nat.le_refl _)

/-- The matcher decides membership in the language of the expression. -/
theorem accepts_iff_Lang (r : Regex) (s : List Nat) : r.accepts s = true ↔ r.Lang s := by
  induction r generalizing s with
  | cls p =>
    simp only [Regex.accepts, Regex.Lang]
    constructor
    · intro h
      match s, h with
      | [c], h => exact ⟨c, rfl, h⟩
    · rintro ⟨c, rfl, h⟩
      exact h
  | seq a b iha ihb =>
    simp only [Regex.accepts, Regex.Lang, any_splits_iff, Bool.and_eq_true, iha, ihb]
  | opt a iha =>
    simp only [Regex.accepts, Regex.Lang, Bool.or_eq_true, List.isEmpty_iff, iha]
  | star a iha =>
    simp only [Regex.accepts, Regex.Lang]
    exact matchStar_iff _ _ iha s
  | plus a iha =>
    simp only [Regex.accepts, Regex.Lang, any_splits_iff, Bool.and_eq_true, iha,
      matchStar_iff _ _ iha]
    constructor
    · rintro ⟨x, y, rfl, hx, ys, rfl, hys⟩
      refine ⟨x :: ys, by simp, by simp, ?_⟩
      intro z hz
      rcases List.mem_cons.1 hz with rfl | hz
      · exact hx
      · exact hys z hz
    · rintro ⟨xs, hne, rfl, h⟩
      cases xs with
      | nil => exact absurd rfl hne
      | cons x ys =>
        exact ⟨x, ys.flatten, by simp, h x (by simp), ys, rfl,
          fun z hz => h z (List.mem_cons_of_mem _ hz)⟩
  | rep a lo hi iha =>
    simp only [Regex.accepts, Regex.Lang]
    exact matchRep_iff _ _ iha lo hi s

/-! ## The language of the e-mail pattern -/

theorem alnum_iff (c : Nat) : alnum c = true ↔ isLetter c = true ∨ isDigit c = true := by
  simp [alnum, isLetter, isDigit, or_assoc]

theorem alnumHyphen_iff (c : Nat) :
    alnumHyphen c = true ↔ isLetter c = true ∨ isDigit c = true ∨ c = '-'.toNat := by
  simp [alnumHyphen, alnum_iff, or_assoc]

theorem alnum_ne_hyphen (c : Nat) (h : alnum c = true) : c ≠ '-'.toNat := by
  rintro rfl
  revert h
  decide

theorem localChar_iff (c : Nat) :
    localChar c = true ↔ isLetter c = true ∨ isDigit c = true ∨ c ∈ specialChars := by
  simp [localChar, alnum_iff, or_assoc, specialChars]

/-- A concatenation of one-character pieces, each in a class. -/
theorem flatten_singletons (P : Nat → Prop) (xs : List (List Nat))
    (h : ∀ p ∈ xs, ∃ c, p = [c] ∧ P c) :
    xs.flatten.length = xs.length ∧ ∀ c ∈ xs.flatten, P c := by
  induction xs with
  | nil => simp
  | cons p ps ih =>
    obtain ⟨c, rfl, hc⟩ := h _ (List.mem_cons_self _ _)
    obtain ⟨h1, h2⟩ := ih (fun q hq => h q (List.mem_cons_of_mem _ hq))
    refine ⟨by simp [h1], ?_⟩
    intro d hd
    simp only [List.flatten_cons, List.singleton_append, List.mem_cons] at hd
    rcases hd with rfl | hd
    · exact hc
    · exact h2 d hd

theorem singletons_flatten (x : List Nat) : x = (x.map (fun c => [c])).flatten := by
  induction x with
  | nil => rfl
  | cons c cs ih => simp [← ih]

theorem lang_label_iff (l : List Nat) : labelRe.Lang l ↔ IsLabel l := by
  simp only [labelRe, Regex.Lang, IsLabel]
  constructor
  · rintro ⟨x, y, rfl, ⟨c, rfl, hc⟩, rfl | ⟨u, v, rfl, ⟨xs, -, hlen, rfl, hxs⟩, d, rfl, hd⟩⟩
    · refine ⟨by simp, by simp, ?_, ?_, ?_⟩
      · intro e he
        simp only [List.append_nil, List.mem_singleton] at he
        subst he
        exact (alnumHyphen_iff _).1 (by simp [alnumHyphen, hc])
      · simpa using alnum_ne_hyphen c hc
      · simpa using alnum_ne_hyphen c hc
    · obtain ⟨h1, h2⟩ := flatten_singletons (fun c => alnumHyphen c = true) xs hxs
      refine ⟨by simp, ?_, ?_, ?_, ?_⟩
      · simp only [List.length_append, List.length_singleton, h1]; omega
      · intro e he
        simp only [List.singleton_append, List.mem_cons, List.mem_append,
          List.mem_singleton, List.not_mem_nil, or_false] at he
        rcases he with rfl | he | rfl
        · exact (alnumHyphen_iff _).1 (by simp [alnumHyphen, hc])
        · exact (alnumHyphen_iff _).1 (h2 e he)
        · exact (alnumHyphen_iff _).1 (by simp [alnumHyphen, hd])
      · simpa using alnum_ne_hyphen c hc
      · rw [← List.append_assoc, List.getLast?_append]
        simpa using alnum_ne_hyphen d hd
  · rintro ⟨h1, h2, h3, h4, h5⟩
    cases l with
    | nil => simp at h1
    | cons c y =>
      have hc : alnum c = true := by
        rcases h3 c (by simp) with h | h | h
        · exact (alnum_iff c).2 (Or.inl h)
        · exact (alnum_iff c).2 (Or.inr h)
        · simp [h] at h4
      refine ⟨[c], y, rfl, ⟨c, rfl, hc⟩, ?_⟩
      rcases List.eq_nil_or_concat y with rfl | ⟨u, d, rfl⟩
      · exact Or.inl rfl
      · right
        simp only [List.concat_eq_append] at h2 h3 h5
        have hd : alnum d = true := by
          rcases h3 d (by simp) with h | h | h
          · exact (alnum_iff d).2 (Or.inl h)
          · exact (alnum_iff d).2 (Or.inr h)
          · rw [← List.cons_append, List.getLast?_append] at h5
            simp [h] at h5
        refine ⟨u, [d], by simp, ⟨u.map (fun c => [c]), Nat.zero_le _, ?_,
          singletons_flatten u, ?_⟩, d, rfl, hd⟩
        · simp only [List.length_cons, List.length_append, List.length_singleton] at h2
          simp only [List.length_map]
          omega
        · intro p hp
          obtain ⟨e, he, rfl⟩ := List.mem_map.1 hp
          exact ⟨e, rfl, (alnumHyphen_iff e).2 (h3 e (by simp [he]))⟩

theorem intercalate_cons (sep l0 : List Nat) (ls : List (List Nat)) :
    List.intercalate sep (l0 :: ls) = l0 ++ (ls.map (fun l => sep ++ l)).flatten := by
  induction ls generalizing l0 with
  | nil => simp [List.intercalate]
  | cons l ls ih =>
    have h := ih l
    simp only [List.intercalate, List.intersperse, List.flatten_cons, List.map_cons,
      List.append_assoc] at h ⊢
    rw [h]

theorem dot_labels_iff (t : List Nat) :
    (∃ ts : List (List Nat), t = ts.flatten ∧
        ∀ q ∈ ts, ∃ d lq, q = d ++ lq ∧
          (∃ c, d = [c] ∧ (c == '.'.toNat) = true) ∧ labelRe.Lang lq) ↔
      ∃ ls : List (List Nat),
        t = (ls.map (fun l => ['.'.toNat] ++ l)).flatten ∧ ∀ l ∈ ls, IsLabel l := by
  constructor
  · rintro ⟨ts, rfl, h⟩
    induction ts with
    | nil => exact ⟨[], rfl, by simp⟩
    | cons q qs ih =>
      obtain ⟨d, lq, rfl, ⟨c, rfl, hc⟩, hl⟩ := h _ (List.mem_cons_self _ _)
      obtain ⟨ls, h1, h2⟩ := ih (fun r hr => h r (List.mem_cons_of_mem _ hr))
      have hc' : c = '.'.toNat := by simpa using hc
      subst hc'
      refine ⟨lq :: ls, by simp [h1], ?_⟩
      intro l hl'
      rcases List.mem_cons.1 hl' with rfl | hl'
      · exact (lang_label_iff _).1 hl
      · exact h2 l hl'
  · rintro ⟨ls, rfl, h⟩
    refine ⟨ls.map (fun l => ['.'.toNat] ++ l), rfl, ?_⟩
    intro q hq
    obtain ⟨l, hl, rfl⟩ := List.mem_map.1 hq
    exact ⟨['.'.toNat], l, rfl, ⟨_, rfl, by simp⟩, (lang_label_iff l).2 (h l hl)⟩

/-- The language of `re` is the set of strings of the form
`local@label1.label2...labelN`. -/
theorem lang_re_iff (cs : List Nat) : re.Lang cs ↔ IsEmail cs := by
  unfold re
  simp only [Regex.Lang]
  rw [IsEmail]
  constructor
  · rintro ⟨x, y, rfl, ⟨xs, hne, rfl, hxs⟩, x', y', rfl, ⟨c, rfl, hc⟩, l0, t, rfl, hl0, ht⟩
    obtain ⟨ls, rfl, hls⟩ := (dot_labels_iff t).1 ht
    obtain ⟨h1, h2⟩ := flatten_singletons (fun c => localChar c = true) xs hxs
    have hc' : c = '@'.toNat := by simpa using hc
    subst hc'
    refine ⟨xs.flatten, l0 :: ls, ⟨?_, ?_⟩, by simp, ?_, ?_⟩
    · intro h0
      rw [h0] at h1
      exact hne (List.length_eq_zero.1 h1.symm)
    · intro e he
      exact (localChar_iff e).1 (h2 e he)
    · intro l hl
      rcases List.mem_cons.1 hl with rfl | hl
      · exact (lang_label_iff _).1 hl0
      · exact hls l hl
    · rw [intercalate_cons]
      simp
  · rintro ⟨loc, labels, ⟨hne, hloc⟩, hlab, hl, rfl⟩
    cases labels with
    | nil => exact absurd rfl hlab
    | cons l0 ls =>
      rw [intercalate_cons]
      refine ⟨loc, _, rfl, ⟨loc.map (fun c => [c]), ?_, singletons_flatten loc, ?_⟩,
        ['@'.toNat], _, rfl, ⟨_, rfl, by simp⟩, l0, _, rfl,
        (lang_label_iff l0).2 (hl l0 (by simp)), ?_⟩
      · simpa using hne
      · intro p hp
        obtain ⟨e, he, rfl⟩ := List.mem_map.1 hp
        exact ⟨e, rfl, (localChar_iff e).2 (hloc e he)⟩
      · exact (dot_labels_iff _).2 ⟨ls, rfl, fun l h => hl l (List.mem_cons_of_mem _ h)⟩

/-! ## Runes of ASCII strings -/

theorem decodeRune_ascii (b0 : Nat) (rest : List Nat) (h : b0 < 128) :
    decodeRune b0 rest = (b0, 1) := by
  simp [decodeRune, h]

theorem decodeRune_ge (b0 : Nat) (rest : List Nat) (h : 128 ≤ b0) :
    128 ≤ (decodeRune b0 rest).1 := by
  unfold decodeRune
  simp only [RuneError, isCont, Bool.and_eq_true, decide_eq_true_eq]
  split_ifs <;> (try split) <;> (try split_ifs) <;> simp only [] <;> omega

theorem runeValues_ascii (s : GoString) (h : ∀ b ∈ s, b.toNat < 128) :
    runeValues s = s.map UInt8.toNat := by
  unfold runeValues runes
  induction s with
  | nil => rfl
  | cons b rest ih =>
    have hb := h b (List.mem_cons_self _ _)
    simp only [runesFrom, decodeRune_ascii _ _ hb, List.map_cons, Nat.sub_self]
    rw [ih (fun c hc => h c (List.mem_cons_of_mem _ hc))]

theorem runeValues_of_ascii_runes (s : GoString) (h : ∀ r ∈ runeValues s, r < 128) :
    runeValues s = s.map UInt8.toNat := by
  apply runeValues_ascii
  unfold runeValues runes at h
  induction s with
  | nil => simp
  | cons b rest ih =>
    have hb : b.toNat < 128 := by
      by_contra hge
      have h1 := decodeRune_ge b.toNat (rest.map UInt8.toNat) (by omega)
      have h2 := h (decodeRune b.toNat (rest.map UInt8.toNat)).1 (by simp [runesFrom])
      omega
    simp only [runesFrom, decodeRune_ascii _ _ hb, List.map_cons, Nat.sub_self,
      List.mem_cons, forall_eq_or_imp] at h
    intro c hc
    rcases List.mem_cons.1 hc with rfl | hc
    · exact hb
    · exact ih h.2 c hc

/-! ## The validator -/

theorem validateForm_eq_false_iff (firstName lastName gender address email : GoString) :
    validateForm firstName lastName gender address email = false ↔
      AllRulesHold firstName lastName gender address email := by
  unfold validateForm AllRulesHold
  simp only [len]
  constructor
  · intro h
    split_ifs at h with hc
    simp only [Bool.or_eq_true, Bool.and_eq_true, beq_iff_eq, bne_iff_ne, ne_eq,
      decide_eq_true_eq, Bool.not_eq_true', not_or, not_and, not_lt,
      Bool.not_eq_false, Decidable.not_not] at hc
    obtain ⟨⟨⟨⟨⟨h1, h2⟩, h3, h4⟩, h5⟩, h6, h7⟩, h8⟩ := hc
    refine ⟨⟨h1, h2⟩, ⟨h3, h4⟩, ?_, ⟨h6, h7⟩, h8⟩
    by_cases hm : gender = go "Male"
    · exact Or.inl hm
    · exact Or.inr (h5 hm)
  · rintro ⟨⟨h1, h2⟩, ⟨h3, h4⟩, h5, ⟨h6, h7⟩, h8⟩
    rw [if_neg]
    simp only [Bool.or_eq_true, Bool.and_eq_true, beq_iff_eq, bne_iff_ne, ne_eq,
      decide_eq_true_eq, Bool.not_eq_true', not_or, not_and, not_lt,
      Bool.not_eq_false, Decidable.not_not]
    refine ⟨⟨⟨⟨⟨h1, h2⟩, h3, h4⟩, ?_⟩, h6, h7⟩, h8⟩
    intro hm
    rcases h5 with h | h
    · exact absurd h hm
    · exact h

/-- C1: `validateForm` returns false (valid) if and only if all five rules
hold together (first and last name non-empty with `len` at most 100, gender
exactly "Male" or "Female", address non-empty with `len` at most 200, e-mail
matched by `re`), and true (invalid) in every other case; the record Jane /
Doe / Female / 1 Main St / jane.doe@example.com is valid. -/
theorem validateForm_contract :
    (∀ firstName lastName gender address email : GoString,
      (validateForm firstName lastName gender address email = false ↔
        AllRulesHold firstName lastName gender address email) ∧
      (validateForm firstName lastName gender address email = true ↔
        ¬ AllRulesHold firstName lastName gender address email)) ∧
    validateForm (go "Jane") (go "Doe") (go "Female") (go "1 Main St")
      (go "jane.doe@example.com") = false := by
  refine ⟨fun firstName lastName gender address email => ⟨?_, ?_⟩, by decide⟩
  · exact validateForm_eq_false_iff _ _ _ _ _
  · rw [← validateForm_eq_false_iff]
    simp

/-- C2: whatever the other four fields are, a gender that is neither exactly
"Male" nor exactly "Female" makes `validateForm` return true (invalid). -/
theorem validateForm_rejects_other_gender
    (firstName lastName gender address email : GoString)
    (hMale : gender ≠ go "Male") (hFemale : gender ≠ go "Female") :
    validateForm firstName lastName gender address email = true := by
  have h := validateForm_eq_false_iff firstName lastName gender address email
  cases hv : validateForm firstName lastName gender address email with
  | true => rfl
  | false =>
    rcases (h.1 hv).2.2.1 with h1 | h1
    · exact absurd h1 hMale
    · exact absurd h1 hFemale

/-- Witness of C2: the input of `TestFieldsValidation`, the empty gender and
the spelling "male". -/
theorem validateForm_rejects_other_gender_witness :
    validateForm (go "maksin") (go "guberniev") (go "null") (go "undefined")
        (go "email.com") = true ∧
      validateForm (go "Jane") (go "Doe") (go "") (go "1 Main St")
        (go "jane.doe@example.com") = true ∧
      validateForm (go "Jane") (go "Doe") (go "male") (go "1 Main St")
        (go "jane.doe@example.com") = true :=
  ⟨validateForm_rejects_other_gender _ _ _ _ _ (by decide) (by decide),
    validateForm_rejects_other_gender _ _ _ _ _ (by decide) (by decide),
    validateForm_rejects_other_gender _ _ _ _ _ (by decide) (by decide)⟩

/-! ## Characters and bytes -/

theorem runesFrom_length_le (s : GoString) (skip : Nat) :
    (runesFrom s skip).length ≤ s.length := by
  induction s generalizing skip with
  | nil => simp [runesFrom]
  | cons b rest ih =>
    cases skip with
    | zero =>
      simp only [runesFrom, List.length_cons]
      exact Nat.succ_le_succ (ih _)
    | succ k =>
      simp only [runesFrom, List.length_cons]
      exact Nat.le_succ_of_le (ih k)

theorem runeCount_le_len (s : GoString) : runeCount s ≤ len s :=
  runesFrom_length_le s 0

theorem runeCount_ascii (s : GoString) (h : ∀ b ∈ s, b.toNat < 128) :
    runeCount s = len s := by
  have h1 := congrArg List.length (runeValues_ascii s h)
  simpa [runeValues, runeCount, len] using h1

theorem validateForm_firstName (firstName lastName gender address email : GoString)
    (hOther : OtherRulesHold lastName gender address email) :
    validateForm firstName lastName gender address email = false ↔
      1 ≤ len firstName ∧ len firstName ≤ 100 := by
  rw [validateForm_eq_false_iff]
  unfold AllRulesHold
  unfold OtherRulesHold at hOther
  have hne : firstName ≠ go "" ↔ 1 ≤ len firstName := by
    have : go "" = [] := by decide
    rw [this, len]
    cases firstName <;> simp
  constructor
  · rintro ⟨⟨h1, h2⟩, -⟩
    exact ⟨hne.1 h1, h2⟩
  · rintro ⟨h1, h2⟩
    exact ⟨⟨hne.2 h1, h2⟩, hOther⟩

/-- C8, as stated, fails: a first name of 100 characters (100 times U+00E9,
two bytes each) is rejected although the other four fields satisfy their rules. -/
theorem validateForm_rejects_100_characters :
    runeCount accented100 = 100 ∧
      OtherRulesHold (go "Doe") (go "Female") (go "1 Main St") (go "jane.doe@example.com") ∧
      validateForm accented100 (go "Doe") (go "Female") (go "1 Main St")
        (go "jane.doe@example.com") = true := by
  refine ⟨by decide, ?_, by decide⟩
  unfold OtherRulesHold
  decide

/-- C8, amended: when the other four fields satisfy their rules, `validateForm`
returns false exactly when the first name has between 1 and 100 bytes, and true
otherwise; every first name of 101 characters is rejected, every first name of
100 bytes is accepted, and so is every first name of 100 ASCII characters. -/
theorem validateForm_firstName_bytes
    (firstName lastName gender address email : GoString)
    (hOther : OtherRulesHold lastName gender address email) :
    (validateForm firstName lastName gender address email = false ↔
        1 ≤ len firstName ∧ len firstName ≤ 100) ∧
      (validateForm firstName lastName gender address email = true ↔
        ¬ (1 ≤ len firstName ∧ len firstName ≤ 100)) ∧
      (runeCount firstName = 101 →
        validateForm firstName lastName gender address email = true) ∧
      (len firstName = 100 →
        validateForm firstName lastName gender address email = false) ∧
      ((∀ b ∈ firstName, b.toNat < 128) → runeCount firstName = 100 →
        validateForm firstName lastName gender address email = false) := by
  have h := validateForm_firstName firstName lastName gender address email hOther
  have hT : validateForm firstName lastName gender address email = true ↔
      ¬ (1 ≤ len firstName ∧ len firstName ≤ 100) := by
    rw [← h]
    simp
  refine ⟨h, hT, ?_, ?_, ?_⟩
  · intro h101
    have := runeCount_le_len firstName
    exact hT.2 (by omega)
  · intro h100
    exact h.2 (by omega)
  · intro hascii h100
    rw [runeCount_ascii firstName hascii] at h100
    exact h.2 (by omega)

/-- Witness of C8 (amended): a first name of 100 letters `a`. -/
theorem validateForm_firstName_bytes_witness :
    OtherRulesHold (go "Doe") (go "Female") (go "1 Main St") (go "jane.doe@example.com") ∧
      len ascii100 = 100 ∧
      validateForm ascii100 (go "Doe") (go "Female") (go "1 Main St")
        (go "jane.doe@example.com") = false :=
  have hOther : OtherRulesHold (go "Doe") (go "Female") (go "1 Main St")
      (go "jane.doe@example.com") := by
    unfold OtherRulesHold
    decide
  ⟨hOther, by decide,
    (validateForm_firstName_bytes ascii100 _ _ _ _ hOther).2.2.2.1 (by decide)⟩

/-! ## The e-mail pattern -/

theorem mem_intercalate (sep : List Nat) (ls : List (List Nat)) (c : Nat)
    (h : c ∈ List.intercalate sep ls) : c ∈ sep ∨ ∃ l ∈ ls, c ∈ l := by
  cases ls with
  | nil => simp [List.intercalate] at h
  | cons l0 ls =>
    rw [intercalate_cons] at h
    simp only [List.mem_append, List.mem_flatten, List.mem_map] at h
    rcases h with h | ⟨x, ⟨l, hl, rfl⟩, hx⟩
    · exact Or.inr ⟨l0, by simp, h⟩
    · rcases List.mem_append.1 hx with hx | hx
      · exact Or.inl hx
      · exact Or.inr ⟨l, List.mem_cons_of_mem _ hl, hx⟩

theorem isLetter_lt (c : Nat) (h : isLetter c = true) : c < 128 := by
  simp only [isLetter, Bool.or_eq_true, Bool.and_eq_true, decide_eq_true_eq] at h
  have h1 : 'z'.toNat = 122 := rfl
  have h2 : 'Z'.toNat = 90 := rfl
  omega

theorem isDigit_lt (c : Nat) (h : isDigit c = true) : c < 128 := by
  simp only [isDigit, Bool.and_eq_true, decide_eq_true_eq] at h
  have h1 : '9'.toNat = 57 := rfl
  omega

theorem specialChars_lt (c : Nat) (h : c ∈ specialChars) : c < 128 := by
  have hall : ∀ d ∈ specialChars, d < 128 := by decide
  exact hall c h

theorem IsEmail_ascii (cs : List Nat) (h : IsEmail cs) : ∀ c ∈ cs, c < 128 := by
  obtain ⟨loc, labels, ⟨-, hloc⟩, -, hlab, rfl⟩ := h
  intro c hc
  simp only [List.mem_append, List.mem_cons] at hc
  rcases hc with hc | rfl | hc
  · rcases hloc c hc with h | h | h
    · exact isLetter_lt c h
    · exact isDigit_lt c h
    · exact specialChars_lt c h
  · decide
  · rcases mem_intercalate _ _ _ hc with h | ⟨l, hl, hcl⟩
    · simp only [List.mem_singleton] at h
      subst h
      decide
    · rcases (hlab l hl).2.2.1 c hcl with h | h | h
      · exact isLetter_lt c h
      · exact isDigit_lt c h
      · subst h
        decide

/-- C4: the pattern `re` matches a string exactly when its bytes have the form
`local@label1.label2...labelN` with `N ≥ 1`, the local part non-empty and made
of letters, digits and the listed punctuation, every label of 1 to 63 letters,
digits and hyphens with no hyphen first or last; "plainaddress" is not
matched and "a@b.co" is. -/
theorem re_matches_email_form :
    (∀ e : GoString, MatchString re e = true ↔ IsEmail (e.map UInt8.toNat)) ∧
      MatchString re (go "plainaddress") = false ∧
      MatchString re (go "a@b.co") = true := by
  refine ⟨fun e => ?_, by decide, by decide⟩
  unfold MatchString
  rw [accepts_iff_Lang, lang_re_iff]
  constructor
  · intro h
    rw [← runeValues_of_ascii_runes e (IsEmail_ascii _ h)]
    exact h
  · intro h
    rw [runeValues_ascii e]
    · exact h
    · intro b hb
      exact IsEmail_ascii _ h b.toNat (List.mem_map_of_mem _ hb)

/-! ## `strconv.Atoi` -/

theorem toUInt8_toNat (c : UInt8) : c.toNat.toUInt8 = c := by
  cases c
  simp [UInt8.toNat, Nat.toUInt8, UInt8.ofNat]

theorem isDigit_iff (c : Nat) : isDigit c = true ↔ '0'.toNat ≤ c ∧ c ≤ '9'.toNat := by
  simp [isDigit]

/-- A decimal integer is a string whose part after the sign is non-empty and
all digits. -/
theorem decimal_iff (s : GoString) :
    IsDecimalInteger s ↔ unsigned s ≠ [] ∧ ∀ b ∈ unsigned s, isDigit b.toNat = true := by
  have hplus : go "+" = ['+'.toNat.toUInt8] := by decide
  have hminus : go "-" = ['-'.toNat.toUInt8] := by decide
  have hp : '+'.toNat = 43 := rfl
  have hm : '-'.toNat = 45 := rfl
  have h0 : '0'.toNat = 48 := rfl
  have h9 : '9'.toNat = 57 := rfl
  have h43 : ('+'.toNat.toUInt8).toNat = 43 := by decide
  have h45 : ('-'.toNat.toUInt8).toNat = 45 := by decide
  constructor
  · rintro ⟨sign, digits, rfl, hsign, hne, hd⟩
    cases digits with
    | nil => exact absurd rfl hne
    | cons d ds =>
      have hd0 := (isDigit_iff _).1 (hd d (List.mem_cons_self _ _))
      rcases hsign with rfl | rfl | rfl
      · have hs : ¬ (d.toNat = '+'.toNat ∨ d.toNat = '-'.toNat) := by omega
        simp only [List.nil_append, unsigned, if_neg hs]
        exact ⟨by simp, hd⟩
      · have hs : ('+'.toNat.toUInt8).toNat = '+'.toNat ∨
            ('+'.toNat.toUInt8).toNat = '-'.toNat := Or.inl (by rw [h43, hp])
        simp only [hplus, List.singleton_append, unsigned, if_pos hs]
        exact ⟨by simp, hd⟩
      · have hs : ('-'.toNat.toUInt8).toNat = '+'.toNat ∨
            ('-'.toNat.toUInt8).toNat = '-'.toNat := Or.inr (by rw [h45, hm])
        simp only [hminus, List.singleton_append, unsigned, if_pos hs]
        exact ⟨by simp, hd⟩
  · rintro ⟨hne, hd⟩
    cases s with
    | nil => exact absurd rfl hne
    | cons c rest =>
      by_cases hs : c.toNat = '+'.toNat ∨ c.toNat = '-'.toNat
      · simp only [unsigned, if_pos hs] at hne hd
        refine ⟨[c], rest, rfl, Or.inr ?_, hne, hd⟩
        rcases hs with hs | hs
        · left; rw [hplus, ← hs, toUInt8_toNat]
        · right; rw [hminus, ← hs, toUInt8_toNat]
      · simp only [unsigned, if_neg hs] at hd
        exact ⟨[], c :: rest, rfl, Or.inl rfl, by simp, hd⟩

theorem unsigned_length_le (s : GoString) : (unsigned s).length ≤ s.length := by
  cases s with
  | nil => simp [unsigned]
  | cons c rest =>
    simp only [unsigned]
    split_ifs <;> simp

theorem unsigned_length_ge (c : UInt8) (rest : GoString) :
    rest.length ≤ (unsigned (c :: rest)).length := by
  simp only [unsigned]
  split_ifs <;> simp

theorem atoiFastLoop_none (s : GoString) (n : Nat)
    (h : ∃ b ∈ s, isDigit b.toNat = false) : atoiFastLoop s n = none := by
  have h0 : '0'.toNat = 48 := rfl
  have h9 : '9'.toNat = 57 := rfl
  induction s generalizing n with
  | nil => simp at h
  | cons ch rest ih =>
    have hlt : ch.toNat < 256 := ch.val.isLt
    simp only [atoiFastLoop]
    by_cases hd : (ch.toNat + 256 - '0'.toNat) % 256 > 9
    · rw [if_pos hd]
    · rw [if_neg hd]
      apply ih
      obtain ⟨b, hb, hbd⟩ := h
      rcases List.mem_cons.1 hb with rfl | hb
      · exfalso
        have : isDigit b.toNat = true := (isDigit_iff _).2 (by omega)
        rw [this] at hbd
        exact Bool.noConfusion hbd
      · exact ⟨b, hb, hbd⟩

theorem leadingValue_ge (s : GoString) (n : Nat) : n ≤ leadingValue s n := by
  induction s generalizing n with
  | nil => simp [leadingValue]
  | cons c rest ih =>
    simp only [leadingValue]
    split_ifs
    · have := ih (n * 10 + (c.toNat - '0'.toNat))
      omega
    · exact Nat.le_refl _

theorem leadingValue_bound (s : GoString) (n : Nat) :
    leadingValue s n + 1 ≤ (n + 1) * 10 ^ s.length := by
  have h0 : '0'.toNat = 48 := rfl
  have h9 : '9'.toNat = 57 := rfl
  induction s generalizing n with
  | nil => simp [leadingValue]
  | cons c rest ih =>
    simp only [leadingValue, List.length_cons, pow_succ]
    have hpos : 0 < 10 ^ rest.length := by positivity
    split_ifs with hd
    · have h1 := ih (n * 10 + (c.toNat - '0'.toNat))
      have h2 : (n * 10 + (c.toNat - '0'.toNat) + 1) * 10 ^ rest.length ≤
          ((n + 1) * 10) * 10 ^ rest.length :=
        Nat.mul_le_mul_right _ (by omega)
      calc leadingValue rest (n * 10 + (c.toNat - '0'.toNat)) + 1
          ≤ (n * 10 + (c.toNat - '0'.toNat) + 1) * 10 ^ rest.length := h1
        _ ≤ ((n + 1) * 10) * 10 ^ rest.length := h2
        _ = (n + 1) * (10 ^ rest.length * 10) := by ring
    · calc n + 1 = (n + 1) * 1 := by ring
        _ ≤ (n + 1) * (10 ^ rest.length * 10) := Nat.mul_le_mul_left _ (by omega)

theorem parseUintLoop_nondigit (s : GoString) (n : Nat) (hn : n < 2 ^ 64)
    (h : ∃ b ∈ s, isDigit b.toNat = false) :
    parseUintLoop s n =
      if leadingValue s n < 2 ^ 64 then (0, some .syntaxErr)
      else (maxUint64, some .rangeErr) := by
  have hmax : maxUint64 = 18446744073709551615 := by decide
  have hpow : (2 : Nat) ^ 64 = 18446744073709551616 := by decide
  induction s generalizing n with
  | nil => simp at h
  | cons c rest ih =>
    simp only [parseUintLoop, leadingValue]
    by_cases hd : '0'.toNat ≤ c.toNat ∧ c.toNat ≤ '9'.toNat
    · simp only [if_pos hd]
      have hge := leadingValue_ge rest (n * 10 + (c.toNat - '0'.toNat))
      by_cases h1 : n ≥ maxUint64 / 10 + 1
      · rw [if_pos h1, if_neg]
        rw [hmax] at h1
        omega
      · rw [if_neg h1]
        by_cases h2 : n * 10 + (c.toNat - '0'.toNat) > maxUint64
        · rw [if_pos h2, if_neg]
          rw [hmax] at h2
          omega
        · rw [if_neg h2]
          apply ih
          · rw [hmax] at h2
            omega
          · obtain ⟨b, hb, hbd⟩ := h
            rcases List.mem_cons.1 hb with rfl | hb
            · rw [(isDigit_iff _).2 hd] at hbd
              exact Bool.noConfusion hbd
            · exact ⟨b, hb, hbd⟩
    · simp only [if_neg hd]
      rw [if_pos hn]

/-- What `Atoi` returns for a non-empty string that is not a decimal integer:
0 and a syntax error when the digits at the front stay below `2 ^ 64`, the
bound of `int` and a range error otherwise. -/
theorem Atoi_not_decimal (s : GoString) (hne : s ≠ []) (h : ¬ IsDecimalInteger s) :
    Atoi s = (badIdValue s,
      some (if leadingValue (unsigned s) 0 < 2 ^ 64 then .syntaxErr else .rangeErr)) := by
  have hpow : (2 : Nat) ^ 64 = 18446744073709551616 := by decide
  have hpow63 : (2 : Nat) ^ 63 = 9223372036854775808 := by decide
  have hmax : maxUint64 = 18446744073709551615 := by decide
  have hbad : unsigned s = [] ∨ ∃ b ∈ unsigned s, isDigit b.toNat = false := by
    by_contra hcon
    rw [not_or] at hcon
    apply h
    rw [decimal_iff]
    refine ⟨hcon.1, fun b hb => ?_⟩
    cases hdb : isDigit b.toNat with
    | true => rfl
    | false => exact absurd ⟨b, hb, hdb⟩ hcon.2
  cases s with
  | nil => exact absurd rfl hne
  | cons c rest =>
    by_cases hfast : 0 < len (c :: rest) ∧ len (c :: rest) < 19
    · have hlv : leadingValue (unsigned (c :: rest)) 0 < 2 ^ 64 := by
        have h1 := leadingValue_bound (unsigned (c :: rest)) 0
        have h2 := unsigned_length_le (c :: rest)
        have h3 : (10 : Nat) ^ (unsigned (c :: rest)).length ≤ 10 ^ 18 :=
          Nat.pow_le_pow_right (by decide) (by simp only [len] at hfast; omega)
        have h4 : (10 : Nat) ^ 18 = 1000000000000000000 := by decide
        omega
      simp only [badIdValue, if_pos hlv]
      simp only [Atoi, if_pos hfast]
      by_cases hs : c.toNat = '+'.toNat ∨ c.toNat = '-'.toNat
      · have hs' : c.toNat = '-'.toNat ∨ c.toNat = '+'.toNat := hs.symm
        simp only [unsigned, if_pos hs] at hbad
        simp only [if_pos hs']
        rcases hbad with hb | hb
        · have : len rest < 1 := by simp [hb, len]
          rw [if_pos this]
        · by_cases hl : len rest < 1
          · rw [if_pos hl]
          · rw [if_neg hl, atoiFastLoop_none rest 0 hb]
      · have hs' : ¬ (c.toNat = '-'.toNat ∨ c.toNat = '+'.toNat) := fun hc => hs hc.symm
        simp only [unsigned, if_neg hs] at hbad
        simp only [if_neg hs']
        rcases hbad with hb | hb
        · exact absurd hb (by simp)
        · have hl : ¬ len (c :: rest) < 1 := by simp [len]
          rw [if_neg hl, atoiFastLoop_none (c :: rest) 0 hb]
    · have hlen : 19 ≤ rest.length + 1 := by
        simp only [len, List.length_cons] at hfast
        omega
      simp only [Atoi, if_neg hfast, ParseInt]
      have hbody : unsigned (c :: rest) ≠ [] := by
        intro hnil
        have h1 := unsigned_length_ge c rest
        rw [hnil] at h1
        simp only [List.length_nil] at h1
        omega
      have hb : ∃ b ∈ unsigned (c :: rest), isDigit b.toNat = false := by
        rcases hbad with hb | hb
        · exact absurd hb hbody
        · exact hb
      have hU : ParseUint (unsigned (c :: rest)) =
          if leadingValue (unsigned (c :: rest)) 0 < 2 ^ 64 then (0, some .syntaxErr)
          else (maxUint64, some .rangeErr) := by
        have hemp : (unsigned (c :: rest)).isEmpty = false := by
          cases hu : unsigned (c :: rest) with
          | nil => exact absurd hu hbody
          | cons _ _ => rfl
        simp only [ParseUint, hemp, Bool.false_eq_true, if_false]
        exact parseUintLoop_nondigit _ 0 (by omega) hb
      have hun : (if c.toNat = '+'.toNat ∨ c.toNat = '-'.toNat then rest else c :: rest) =
          unsigned (c :: rest) := rfl
      rw [hun, hU]
      by_cases hlv : leadingValue (unsigned (c :: rest)) 0 < 2 ^ 64
      · simp only [badIdValue, if_pos hlv]
      · simp only [badIdValue, if_neg hlv, List.head?_cons, Option.map_some', Option.some.injEq]
        by_cases hneg : c.toNat = '-'.toNat
        · have h1 : ¬ (¬ c.toNat = '-'.toNat ∧ maxUint64 ≥ 2 ^ 63) := fun hc => hc.1 hneg
          have h2 : c.toNat = '-'.toNat ∧ maxUint64 > 2 ^ 63 :=
            ⟨hneg, by rw [hmax, hpow63]; omega⟩
          simp only [if_neg h1, if_pos h2, if_pos hneg]
        · have h1 : ¬ c.toNat = '-'.toNat ∧ maxUint64 ≥ 2 ^ 63 :=
            ⟨hneg, by rw [hmax, hpow63]; omega⟩
          simp only [if_pos h1, if_neg hneg]

/-! ## The write handlers -/

theorem editCustomerAction_eq (db : DB) (r : Request) (hMethod : r.Method = go "POST")
    (hID : r.FormValue (go "ID") ≠ go "") :
    editCustomerAction db r =
      if !db.beginOk then
        ⟨if formInvalid r then [.error 400] else [], [.begin false], .returned⟩
      else if !db.execOk (updateStmt r) then
        ⟨(if formInvalid r then [.error 400] else []) ++ [.error 500],
          [.begin true, .txExec (updateStmt r) false, .rollback], .returned⟩
      else if !db.commitOk then
        ⟨if formInvalid r then [.error 400] else [],
          [.begin true, .txExec (updateStmt r) true, .commit false], .exited⟩
      else
        ⟨(if formInvalid r then [.error 400] else []) ++ [.redirect (go "customers") 303],
          [.begin true, .txExec (updateStmt r) true, .commit true], .returned⟩ := by
  have h1 : (r.Method != go "POST") = false := by simp [hMethod]
  have h2 : (r.FormValue (go "ID") == go "") = false := by simpa using hID
  simp only [editCustomerAction, h1, h2, formInvalid, updateStmt, Bool.false_eq_true, if_false]

/-- C5: on a POST to /editcustomeraction with a non-empty ID and fields that
pass `validateForm`, when the transaction begins and the UPDATE statement
fails, the handler rolls the transaction back, never commits, answers 500 and
returns, and the store is as it was before the request. -/
theorem editCustomerAction_exec_failure (db : DB) (r : Request) (table : List Customer)
    (hMethod : r.Method = go "POST") (hID : r.FormValue (go "ID") ≠ go "")
    (hValid : formInvalid r = false) (hBegin : db.beginOk = true)
    (hExec : db.execOk (updateStmt r) = false) :
    (editCustomerAction db r).calls =
        [.begin true, .txExec (updateStmt r) false, .rollback] ∧
      (∀ ok, DbCall.commit ok ∉ (editCustomerAction db r).calls) ∧
      (editCustomerAction db r).status = some 500 ∧
      (editCustomerAction db r).ending = .returned ∧
      Store.run ⟨table, none⟩ (editCustomerAction db r).calls = ⟨table, none⟩ := by
  rw [editCustomerAction_eq db r hMethod hID]
  simp [hValid, hBegin, hExec, Outcome.status, Write.code, Store.run, Store.step]

/-- C3 fails on /editcustomeraction: with a non-empty ID, fields that
`validateForm` rejects and a database that accepts the calls, the handler
answers 400 and still executes and commits the UPDATE statement, so the table
becomes the updated one. -/
theorem editCustomerAction_invalid_still_updates (db : DB) (r : Request)
    (table : List Customer)
    (hMethod : r.Method = go "POST") (hID : r.FormValue (go "ID") ≠ go "")
    (hInvalid : formInvalid r = true) (hBegin : db.beginOk = true)
    (hExec : db.execOk (updateStmt r) = true) (hCommit : db.commitOk = true) :
    (editCustomerAction db r).status = some 400 ∧
      (editCustomerAction db r).calls =
        [.begin true, .txExec (updateStmt r) true, .commit true] ∧
      Store.run ⟨table, none⟩ (editCustomerAction db r).calls =
        ⟨applyStmt (updateStmt r) table, none⟩ := by
  rw [editCustomerAction_eq db r hMethod hID]
  simp [hInvalid, hBegin, hExec, hCommit, Outcome.status, Write.code, Store.run, Store.step]

/-- The part of C3 that holds: on /createcustomeraction, fields that
`validateForm` rejects give a 400 and no database call. -/
theorem createCustomerAction_invalid (db : DB) (r : Request)
    (hMethod : r.Method = go "POST") (hInvalid : formInvalid r = true) :
    createCustomerAction db r = ⟨[.error 400], [], .returned⟩ := by
  have h1 : (r.Method != go "POST") = false := by simp [hMethod]
  unfold formInvalid at hInvalid
  simp only [createCustomerAction, h1, hInvalid, Bool.false_eq_true, if_false, if_true]

/-- C10, amended: on a POST to /editcustomeraction whose ID is non-empty and
not a decimal integer, `Atoi` fails, the error is dropped and the handler goes
on; the identifier is 0 when the digits at the front of the ID (after its
sign) stay below `2 ^ 64`, as they do for every ID of fewer than 19 bytes, and
otherwise the bound of `int` on the side of the sign; when the transaction
begins the UPDATE statement is executed with that identifier, and a 400 is
written only if the validator rejects the fields. -/
theorem editCustomerAction_bad_id (db : DB) (r : Request)
    (hMethod : r.Method = go "POST") (hID : r.FormValue (go "ID") ≠ go "")
    (hNotDecimal : ¬ IsDecimalInteger (r.FormValue (go "ID"))) (hBegin : db.beginOk = true) :
    (Atoi (r.FormValue (go "ID"))).2 ≠ none ∧
      (Atoi (r.FormValue (go "ID"))).1 = badIdValue (r.FormValue (go "ID")) ∧
      (len (r.FormValue (go "ID")) < 19 → badIdValue (r.FormValue (go "ID")) = 0) ∧
      (∃ ok rest, (editCustomerAction db r).calls =
        .begin true ::
          .txExec (.update (r.FormValue (go "firstName")) (r.FormValue (go "lastName"))
            (r.FormValue (go "birthDate")) (r.FormValue (go "gender"))
            (r.FormValue (go "email")) (r.FormValue (go "address"))
            (badIdValue (r.FormValue (go "ID")))) ok :: rest) ∧
      (formInvalid r = false → Write.error 400 ∉ (editCustomerAction db r).writes) := by
  have hne : r.FormValue (go "ID") ≠ [] := hID
  have hA := Atoi_not_decimal _ hne hNotDecimal
  have hU : updateStmt r = .update (r.FormValue (go "firstName"))
      (r.FormValue (go "lastName")) (r.FormValue (go "birthDate"))
      (r.FormValue (go "gender")) (r.FormValue (go "email"))
      (r.FormValue (go "address")) (badIdValue (r.FormValue (go "ID"))) := by
    simp only [updateStmt, hA]
  rw [editCustomerAction_eq db r hMethod hID, ← hU]
  refine ⟨by rw [hA]; simp, by rw [hA], ?_, ?_, ?_⟩
  · intro hlen
    have h1 := leadingValue_bound (unsigned (r.FormValue (go "ID"))) 0
    have h2 := unsigned_length_le (r.FormValue (go "ID"))
    have h3 : (10 : Nat) ^ (unsigned (r.FormValue (go "ID"))).length ≤ 10 ^ 18 :=
      Nat.pow_le_pow_right (by decide) (by simp only [len] at hlen; omega)
    have h4 : (10 : Nat) ^ 18 = 1000000000000000000 := by decide
    have hpow : (2 : Nat) ^ 64 = 18446744073709551616 := by decide
    have hlv : leadingValue (unsigned (r.FormValue (go "ID"))) 0 < 2 ^ 64 := by omega
    simp only [badIdValue, if_pos hlv]
  · simp only [hBegin, Bool.not_true, Bool.false_eq_true, if_false]
    split_ifs <;> exact ⟨_, _, rfl⟩
  · intro hv
    simp only [hBegin, hv, Bool.not_true, Bool.false_eq_true, if_false]
    split_ifs <;> simp

/-- Witness of C5: the update of customer 1 with valid fields on a database
in which the statement fails. -/
theorem editCustomerAction_exec_failure_witness :
    formInvalid (editRequest "1" "Female") = false ∧
      (editCustomerAction (dbFailingExec [janeStored]) (editRequest "1" "Female")).calls =
        [.begin true, .txExec (updateStmt (editRequest "1" "Female")) false, .rollback] ∧
      (editCustomerAction (dbFailingExec [janeStored]) (editRequest "1" "Female")).status =
        some 500 ∧
      Store.run ⟨[janeStored], none⟩
        (editCustomerAction (dbFailingExec [janeStored]) (editRequest "1" "Female")).calls =
        ⟨[janeStored], none⟩ :=
  have h := editCustomerAction_exec_failure (dbFailingExec [janeStored])
    (editRequest "1" "Female") [janeStored] (by decide) (by decide) (by decide) (by decide)
    (by decide)
  ⟨by decide, h.1, h.2.2.1, h.2.2.2.2⟩

/-- Witness of the failure of C3: the update of customer 1 with the gender
"null" is answered with 400 and changes the stored row all the same. -/
theorem editCustomerAction_invalid_still_updates_witness :
    formInvalid (editRequest "1" "null") = true ∧
      (editCustomerAction (dbWith [janeStored]) (editRequest "1" "null")).status = some 400 ∧
      Store.run ⟨[janeStored], none⟩
        (editCustomerAction (dbWith [janeStored]) (editRequest "1" "null")).calls =
        ⟨applyStmt (updateStmt (editRequest "1" "null")) [janeStored], none⟩ ∧
      applyStmt (updateStmt (editRequest "1" "null")) [janeStored] =
        [⟨1, go "Janet", go "Doe", go "1990-05-02", go "null", go "jane.doe@example.com",
          go "1 Main St"⟩] ∧
      applyStmt (updateStmt (editRequest "1" "null")) [janeStored] ≠ [janeStored] :=
  have h := editCustomerAction_invalid_still_updates (dbWith [janeStored])
    (editRequest "1" "null") [janeStored] (by decide) (by decide) (by decide) (by decide)
    (by decide) (by decide)
  ⟨by decide, h.1, h.2.2, by decide, by decide⟩

theorem not_decimal_of_nondigit (s : GoString)
    (h : ∃ b ∈ unsigned s, isDigit b.toNat = false) : ¬ IsDecimalInteger s := by
  rw [decimal_iff]
  rintro ⟨-, hd⟩
  obtain ⟨b, hb, hbd⟩ := h
  rw [hd b hb] at hbd
  exact Bool.noConfusion hbd

/-- C10, as stated, fails: the ID of twenty digits 9 followed by the letter x
is not a decimal integer, yet the identifier does not become 0: `Atoi` stops
at the twentieth digit with a range error, and the UPDATE statement is
executed and committed with the identifier 9223372036854775807. -/
theorem editCustomerAction_bad_id_not_zero :
    ¬ IsDecimalInteger (go "99999999999999999999x") ∧
      (editRequest "99999999999999999999x" "Female").Method = go "POST" ∧
      (editRequest "99999999999999999999x" "Female").FormValue (go "ID") =
        go "99999999999999999999x" ∧
      Atoi (go "99999999999999999999x") = (9223372036854775807, some .rangeErr) ∧
      (editCustomerAction (dbWith [janeStored])
          (editRequest "99999999999999999999x" "Female")).calls =
        [.begin true,
          .txExec (.update (go "Janet") (go "Doe") (go "1990-05-02") (go "Female")
            (go "jane.doe@example.com") (go "1 Main St") 9223372036854775807) true,
          .commit true] :=
  ⟨not_decimal_of_nondigit _ (by decide), by decide, by decide, by decide, by decide⟩

/-- Witness of C10 (amended): the identifier "abc". -/
theorem editCustomerAction_bad_id_witness :
    ¬ IsDecimalInteger (go "abc") ∧
      Atoi (go "abc") = (0, some .syntaxErr) ∧
      (editCustomerAction (dbWith [janeStored]) (editRequest "abc" "Female")).calls =
        [.begin true,
          .txExec (.update (go "Janet") (go "Doe") (go "1990-05-02") (go "Female")
            (go "jane.doe@example.com") (go "1 Main St") 0) true,
          .commit true] ∧
      (editCustomerAction (dbWith [janeStored]) (editRequest "abc" "Female")).status =
        some 303 :=
  have hnd : ¬ IsDecimalInteger (go "abc") := not_decimal_of_nondigit _ (by decide)
  have h := editCustomerAction_bad_id (dbWith [janeStored]) (editRequest "abc" "Female")
    (by decide) (by decide) hnd (by decide)
  ⟨hnd, Prod.ext (h.2.1.trans (h.2.2.1 (by decide))) (by decide), by decide, by decide⟩

/-! ## The read handlers -/

theorem slice_ten (s : GoString) (h : 10 ≤ len s) : slice s 0 10 = some (s.take 10) := by
  have h1 : ¬ (10 > len s ∨ 0 > 10) := by omega
  simp only [slice, if_neg h1, List.drop_zero]

theorem scanLoop_ok (rows : List Scanned) (customers : List Customer)
    (h : ∀ row ∈ rows, row.err = none ∧ 10 ≤ len row.customer.BirthDate) :
    scanLoop rows customers =
      some (customers ++ rows.map fun row => truncateBirthDate row.customer) := by
  induction rows generalizing customers with
  | nil => simp [scanLoop]
  | cons row rows ih =>
    obtain ⟨herr, hlen⟩ := h row (List.mem_cons_self _ _)
    simp only [scanLoop, slice_ten _ hlen, herr, Option.isSome_none, Bool.false_eq_true,
      if_false]
    rw [ih _ (fun r hr => h r (List.mem_cons_of_mem _ hr))]
    simp [truncateBirthDate]

/-- C6 fails: on a GET to /editcustomer with a non-empty id that matches no
record (the scan reports no rows and leaves the zero `Customer`), the handler
panics on `BirthDate[0:10]` before it looks at the error: nothing is written,
no 404. -/
theorem editCustomer_not_found_panics (db : DB) (r : Request)
    (hMethod : r.Method = go "GET") (hId : r.FormValue (go "id") ≠ go "")
    (hRow : db.row (r.FormValue (go "id")) = ⟨Customer.zero, some .noRows⟩) :
    editCustomer db r = ⟨[], [.queryRow (r.FormValue (go "id"))], .panicked⟩ ∧
      (editCustomer db r).status = none := by
  have h1 : (r.Method != go "GET") = false := by simp [hMethod]
  have h2 : (r.FormValue (go "id") == go "") = false := by simpa using hId
  have h3 : slice Customer.zero.BirthDate 0 10 = none := by decide
  have h4 : editCustomer db r = ⟨[], [.queryRow (r.FormValue (go "id"))], .panicked⟩ := by
    simp only [editCustomer, h1, h2, hRow, h3, Bool.false_eq_true, if_false]
  rw [h4]
  exact ⟨rfl, rfl⟩

/-- Witness of the failure of C6: the request `/editcustomer?id=999` on a
database that has no such row. -/
theorem editCustomer_not_found_panics_witness :
    editCustomer (dbWith [janeStored]) (getRequest "id" "999") =
        ⟨[], [.queryRow (go "999")], .panicked⟩ ∧
      (editCustomer (dbWith [janeStored]) (getRequest "id" "999")).status ≠ some 404 :=
  have h := editCustomer_not_found_panics (dbWith [janeStored]) (getRequest "id" "999")
    (by decide) (by decide) (by decide)
  ⟨h.1, by rw [h.2]; decide⟩

/-- C7 fails: when the non-empty search parameter has fewer than two
whitespace-separated tokens, `searchCustomer` panics on the token access
before any query is sent or anything is written. -/
theorem searchCustomer_few_tokens_panics (db : DB) (r : Request)
    (hParam : r.FormValue (go "param") ≠ go "")
    (hTokens : (Fields (r.FormValue (go "param"))).length < 2) :
    searchCustomer db r = ⟨[], [], .panicked⟩ ∧ (searchCustomer db r).status = none := by
  have h1 : (r.FormValue (go "param") == go "") = false := by simpa using hParam
  have h2 : searchCustomer db r = ⟨[], [], .panicked⟩ := by
    simp only [searchCustomer, h1, Bool.false_eq_true, if_false]
    rcases hw : Fields (r.FormValue (go "param")) with _ | ⟨w0, _ | ⟨w1, rest⟩⟩
    · rfl
    · rfl
    · rw [hw] at hTokens
      simp only [List.length_cons] at hTokens
      omega
  rw [h2]
  exact ⟨rfl, rfl⟩

/-- Witness of the failure of C7: the parameters "John" (one token) and " "
(no token). -/
theorem searchCustomer_few_tokens_panics_witness :
    Fields (go "John") = [go "John"] ∧ Fields (go " ") = [] ∧
      searchCustomer (dbWith [janeStored]) (getRequest "param" "John") =
        ⟨[], [], .panicked⟩ ∧
      searchCustomer (dbWith [janeStored]) (getRequest "param" " ") =
        ⟨[], [], .panicked⟩ :=
  ⟨by decide, by decide,
    (searchCustomer_few_tokens_panics (dbWith [janeStored]) (getRequest "param" "John")
      (by decide) (by decide)).1,
    (searchCustomer_few_tokens_panics (dbWith [janeStored]) (getRequest "param" " ")
      (by decide) (by decide)).1⟩

/-- C9, as stated, fails: a stored birth date of fewer than 10 bytes ("1990")
makes each read path panic, and no customer reaches a view, not even the row
with a full birth date that is listed before it; and a stored birth date whose
first character takes two bytes is cut after 10 bytes, which are its first 9
characters, not its first 10. -/
theorem read_paths_short_birth_date :
    (len shortDateStored.BirthDate = 4 ∧
      showCustomers (dbWith [shortDateStored]) (getRequest "k" "v") =
        ⟨[], [.queryAll], .panicked⟩ ∧
      searchCustomer (dbWith [shortDateStored]) (getRequest "param" "John Roe") =
        ⟨[], [.querySearch (go "John") (go "Roe")], .panicked⟩ ∧
      editCustomer (dbFinding shortDateStored) (getRequest "id" "2") =
        ⟨[], [.queryRow (go "2")], .panicked⟩) ∧
    (showCustomers (dbWith [janeStored, shortDateStored]) (getRequest "k" "v") =
        ⟨[], [.queryAll], .panicked⟩ ∧
      searchCustomer (dbWith [janeStored, shortDateStored]) (getRequest "param" "Jane Roe") =
        ⟨[], [.querySearch (go "Jane") (go "Roe")], .panicked⟩) ∧
    (editCustomer (dbFinding accentedDateStored) (getRequest "id" "3") =
        ⟨[.template (go "update.html")
            (.customer { accentedDateStored with BirthDate := [0xC3, 0xA9] ++ go "990-05-0" })],
          [.queryRow (go "3")], .returned⟩ ∧
      firstChars 10 accentedDateStored.BirthDate = [0xC3, 0xA9] ++ go "990-05-02" ∧
      runeCount ([0xC3, 0xA9] ++ go "990-05-0") = 9) := by
  decide

/-- C9, amended: when every row that the store returns to the handler scans
without error and has a birth date of at least 10 bytes, each of the three
read paths (`showCustomers`, `searchCustomer` on a parameter of at least two
tokens, `editCustomer`) hands to its view, for each of these rows, the scanned
customer with the birth date cut to its first 10 bytes and every other field
unchanged; "1990-05-02T00:00:00Z" becomes "1990-05-02". -/
theorem read_paths_truncate_birth_date (rows : List Scanned)
    (hRows : ∀ row ∈ rows, row.err = none ∧ 10 ≤ len row.customer.BirthDate) :
    (∀ (db : DB) (r : Request), r.Method = go "GET" → db.all = some rows →
        showCustomers db r =
          ⟨[.template (go "all.html")
              (.customers (rows.map fun row => truncateBirthDate row.customer))],
            [.queryAll], .returned⟩) ∧
      (∀ (db : DB) (r : Request) (w0 w1 : GoString) (ws : List GoString),
        r.FormValue (go "param") ≠ go "" →
        Fields (r.FormValue (go "param")) = w0 :: w1 :: ws →
        db.search w0 w1 = some rows →
        searchCustomer db r =
          ⟨[.template (go "search.html")
              (.search ⟨rows.map fun row => truncateBirthDate row.customer,
                r.FormValue (go "param")⟩)],
            [.querySearch w0 w1], .returned⟩) ∧
      (∀ (db : DB) (r : Request) (row : Scanned), row ∈ rows →
        r.Method = go "GET" → r.FormValue (go "id") ≠ go "" →
        db.row (r.FormValue (go "id")) = row →
        editCustomer db r =
          ⟨[.template (go "update.html") (.customer (truncateBirthDate row.customer))],
            [.queryRow (r.FormValue (go "id"))], .returned⟩) ∧
      (∀ c : Customer, (truncateBirthDate c).BirthDate = c.BirthDate.take 10 ∧
        (truncateBirthDate c).ID = c.ID ∧ (truncateBirthDate c).FirstName = c.FirstName ∧
        (truncateBirthDate c).LastName = c.LastName ∧ (truncateBirthDate c).Gender = c.Gender ∧
        (truncateBirthDate c).Email = c.Email ∧ (truncateBirthDate c).Address = c.Address) ∧
      (go "1990-05-02T00:00:00Z").take 10 = go "1990-05-02" := by
  refine ⟨?_, ?_, ?_, fun c => ⟨rfl, rfl, rfl, rfl, rfl, rfl, rfl⟩, by decide⟩
  · intro db r hMethod hAll
    have h1 : (r.Method != go "GET") = false := by simp [hMethod]
    simp only [showCustomers, h1, hAll, scanLoop_ok rows [] hRows, Bool.false_eq_true,
      if_false, List.nil_append]
  · intro db r w0 w1 ws hParam hFields hSearch
    have h1 : (r.FormValue (go "param") == go "") = false := by simpa using hParam
    simp only [searchCustomer, h1, hFields, Bool.false_eq_true, if_false]
    simp only [List.getElem?_cons_zero, List.getElem?_cons_succ, hSearch,
      scanLoop_ok rows [] hRows, List.nil_append]
  · intro db r row hrow hMethod hId hRow
    obtain ⟨herr, hlen⟩ := hRows row hrow
    have h1 : (r.Method != go "GET") = false := by simp [hMethod]
    have h2 : (r.FormValue (go "id") == go "") = false := by simpa using hId
    simp only [editCustomer, h1, h2, hRow, slice_ten _ hlen, herr, Bool.false_eq_true,
      if_false]
    rfl

/-- Witness of C9 (amended): the stored row of Jane Doe, born
"1990-05-02T00:00:00Z", is listed with the birth date "1990-05-02". -/
theorem read_paths_truncate_birth_date_witness :
    showCustomers (dbWith [janeStored]) (getRequest "k" "v") =
        ⟨[.template (go "all.html")
            (.customers [{ janeStored with BirthDate := go "1990-05-02" }])],
          [.queryAll], .returned⟩ ∧
      editCustomer (dbFinding janeStored) (getRequest "id" "1") =
        ⟨[.template (go "update.html")
            (.customer { janeStored with BirthDate := go "1990-05-02" })],
          [.queryRow (go "1")], .returned⟩ :=
  have h := read_paths_truncate_birth_date [⟨janeStored, none⟩] (by decide)
  ⟨h.1 (dbWith [janeStored]) (getRequest "k" "v") (by decide) (by decide),
    h.2.2.1 (dbFinding janeStored) (getRequest "id" "1") ⟨janeStored, none⟩ (by simp)
      (by decide) (by decide) (by decide)⟩

end GoCrud
